import Mathlib

/-!
Shallow embedding of the updateGit repository-update core: the repository
scanner, the repository filter, the backup manager and the update
orchestrator (packages `git`, `filter`, `backup` and the `pull` command).
External effects (directory listing, invocations of the `git` executable,
filesystem writes, the wall clock) are modelled by a `World` record whose
function fields give the outcome of each external call; the embedded
functions are deterministic functions of the world and their arguments.
-/

namespace UpdateGit

/-- One immediate child of the base directory, as returned by `os.ReadDir`. -/
structure FsEntry where
  name : String
  isDir : Bool
deriving DecidableEq, Repr

/-- Outcomes of every external call the embedded code makes.
`entries` is the listing of the base directory; `gitDirIsDir p` says whether
`os.Stat p` succeeds and reports a directory; `symbolicRef`, `branchesOut`
give the stdout of `git symbolic-ref HEAD` / `git branch` run in a
repository path, or the error; `pullResult p` is `none` when `git pull`
exits 0 in `p` and `some errMsg` otherwise; `statusOutput p` is the stdout
of `git status --porcelain`, `none` when the command itself fails to run;
`stashResult p` is `none` when `git stash push` succeeds and
`some (errMsg, combinedOutput)` otherwise; `mkdirAllResult` and
`copyResult` give the error, if any, of `os.MkdirAll` and of the
`copyRepository` walk; `now` is the current time. -/
structure World where
  now : Nat
  entries : List FsEntry
  gitDirIsDir : String → Bool
  symbolicRef : String → Except String String
  branchesOut : String → Except String String
  pullResult : String → Option String
  statusOutput : String → Option String
  stashResult : String → Option (String × String)
  mkdirAllResult : String → Option String
  copyResult : String → String → Option String

/-- `filepath.Join` for the two-argument uses in the embedded code. -/
def joinPath (a b : String) : String := a ++ "/" ++ b

/-! ## Package git: scanner and git operation runner (part_002) -/

/-- `Repository` from package git. -/
structure Repository where
  Path : String
  Name : String
  CurrentBranch : String
  IsValid : Bool
deriving DecidableEq, Repr

/-- `GitError` from package git; the wrapped Go error is kept as its message. -/
structure GitError where
  Repository : String
  Operation : String
  Err : String
deriving DecidableEq, Repr

/-- `IsGitRepository`: true iff `path/.git` exists and is a directory. -/
def IsGitRepository (w : World) (path : String) : Bool :=
  w.gitDirIsDir (joinPath path ".git")

/-- `GetCurrentBranch`: reads `git symbolic-ref HEAD`; on command error
returns `"unknown"` together with a `GitError`; on success trims the
output, splits on `/` and, when there are at least three parts, joins the
parts after the first two. -/
def GetCurrentBranch (w : World) (repoPath : String) : String × Option GitError :=
  match w.symbolicRef repoPath with
  | .error e =>
      ("unknown", some { Repository := repoPath, Operation := "symbolic-ref", Err := e })
  | .ok output =>
      let branchRef := output.trim
      let parts := branchRef.splitOn "/"
      if parts.length ≥ 3 then
        (String.intercalate "/" (parts.drop 2), none)
      else
        (branchRef, none)

/-- `PullRepository`: runs `git pull` with inherited stdio; `none` on
success, a `GitError` with operation `"pull"` on nonzero exit. -/
def PullRepository (w : World) (repoPath : String) : Option GitError :=
  match w.pullResult repoPath with
  | none => none
  | some e => some { Repository := repoPath, Operation := "pull", Err := e }

/-- The `Repository` record `FindRepositories` builds for a directory entry
recognized as a git repository. -/
def mkRepository (w : World) (baseDir : String) (e : FsEntry) : Repository :=
  { Path := joinPath baseDir e.name
    Name := e.name
    CurrentBranch := (GetCurrentBranch w (joinPath baseDir e.name)).1
    IsValid := true }

/-- The loop body of `FindRepositories` over the directory entries. -/
def findReposLoop (w : World) (baseDir : String) : List FsEntry → List Repository
  | [] => []
  | e :: rest =>
      if e.isDir then
        if IsGitRepository w (joinPath baseDir e.name) then
          mkRepository w baseDir e :: findReposLoop w baseDir rest
        else
          findReposLoop w baseDir rest
      else
        findReposLoop w baseDir rest

/-- `FindRepositories`: scans the immediate children of `baseDir`,
keeping directory entries whose `.git` child is a directory. -/
def FindRepositories (w : World) (baseDir : String) : List Repository :=
  findReposLoop w baseDir w.entries

/-! ## Package filter (internal/filter/filter.go) -/

/-- `Filter` from package filter. Compiled regular expressions are
abstracted to their `MatchString` predicate (`none` when the pattern field
is nil); the `SkipRepos` map built by `NewFilter` is abstracted to the
list of names stored in it, queried by exact membership. -/
structure Filter where
  IncludePattern : Option (String → Bool)
  ExcludePattern : Option (String → Bool)
  SkipRepos : List String

/-- The exclude-pattern condition of `ShouldProcess`:
`f.ExcludePattern != nil && f.ExcludePattern.MatchString(repoName)`. -/
def Filter.excludeMatches (f : Filter) (repoName : String) : Bool :=
  match f.ExcludePattern with
  | some p => p repoName
  | none => false

/-- The include-pattern condition of `ShouldProcess`:
`f.IncludePattern != nil && !f.IncludePattern.MatchString(repoName)`. -/
def Filter.includeRejects (f : Filter) (repoName : String) : Bool :=
  match f.IncludePattern with
  | some p => !p repoName
  | none => false

/-- `Filter.ShouldProcess`: skip-list check, then exclude pattern, then
include pattern; the first failing check returns false. -/
def Filter.ShouldProcess (f : Filter) (repoName : String) : Bool :=
  if f.SkipRepos.contains repoName then
    false
  else if f.excludeMatches repoName then
    false
  else if f.includeRejects repoName then
    false
  else
    true

/-- The loop of `Filter.FilterRepositories`, appending each accepted name. -/
def filterReposLoop (f : Filter) : List String → List String → List String
  | acc, [] => acc
  | acc, repo :: rest =>
      if f.ShouldProcess repo then
        filterReposLoop f (acc ++ [repo]) rest
      else
        filterReposLoop f acc rest

/-- `Filter.FilterRepositories`: keeps the names accepted by
`ShouldProcess`, in input order. -/
def Filter.FilterRepositories (f : Filter) (repos : List String) : List String :=
  filterReposLoop f [] repos

/-! ## Package backup (internal/backup/backup.go) -/

/-- `BackupStrategy` is a string type in the source. -/
abbrev BackupStrategy := String

def StrategyStash : BackupStrategy := "stash"

def StrategyCopy : BackupStrategy := "copy"

/-- `BackupManager` from package backup. -/
structure BackupManager where
  BackupDir : String
  Strategy : BackupStrategy
  Timestamp : String
deriving DecidableEq, Repr

/-- `BackupInfo` from package backup; `time.Now()` is taken from the world. -/
structure BackupInfo where
  Repository : String
  BackupPath : String
  Strategy : BackupStrategy
  Timestamp : Nat
  OriginalPath : String
deriving DecidableEq, Repr

/-- `BackupError` from package backup. -/
structure BackupError where
  Repository : String
  Operation : String
  Err : String
deriving DecidableEq, Repr

/-- A recorded invocation of the `git` executable: working directory and
argument list. -/
structure GitCmd where
  dir : String
  args : List String
deriving DecidableEq, Repr

/-- `hasUncommittedChanges`: runs `git status --porcelain`; if the command
fails to run it conservatively reports true; otherwise true iff the output
is non-empty. -/
def BackupManager.hasUncommittedChanges (_bm : BackupManager) (w : World)
    (repoPath : String) : Bool :=
  match w.statusOutput repoPath with
  | none => true
  | some out => out.length > 0

/-- `createStashBackup`: when there is nothing to stash, returns a
successful `BackupInfo` with the sentinel path `"git-stash"`; otherwise
runs `git stash push -u -m` with a message embedding the run timestamp and
on failure returns a `BackupError` tagged `"git stash"` whose error wraps
the combined output. The second component records the git commands run. -/
def BackupManager.createStashBackup (bm : BackupManager) (w : World)
    (repoPath repoName : String) : Except BackupError BackupInfo × List GitCmd :=
  let statusCmd : GitCmd := { dir := repoPath, args := ["status", "--porcelain"] }
  if !(bm.hasUncommittedChanges w repoPath) then
    (.ok { Repository := repoName
           BackupPath := "git-stash"
           Strategy := StrategyStash
           Timestamp := w.now
           OriginalPath := repoPath },
     [statusCmd])
  else
    let stashMessage := "updateGit backup " ++ bm.Timestamp
    let stashCmd : GitCmd := { dir := repoPath, args := ["stash", "push", "-u", "-m", stashMessage] }
    match w.stashResult repoPath with
    | some (errMsg, out) =>
        (.error { Repository := repoName
                  Operation := "git stash"
                  Err := errMsg ++ ": " ++ out },
         [statusCmd, stashCmd])
    | none =>
        (.ok { Repository := repoName
               BackupPath := "stash: " ++ stashMessage
               Strategy := StrategyStash
               Timestamp := w.now
               OriginalPath := repoPath },
         [statusCmd, stashCmd])

/-- `createCopyBackup`: makes `BackupDir/repoName` and copies the working
tree into it; the directory creation and the copy walk are external
filesystem operations whose outcomes the world provides. Runs no git
commands. -/
def BackupManager.createCopyBackup (bm : BackupManager) (w : World)
    (repoPath repoName : String) : Except BackupError BackupInfo × List GitCmd :=
  let backupPath := joinPath bm.BackupDir repoName
  match w.mkdirAllResult backupPath with
  | some e => (.error { Repository := repoName, Operation := "create directory", Err := e }, [])
  | none =>
      match w.copyResult repoPath backupPath with
      | some e => (.error { Repository := repoName, Operation := "copy files", Err := e }, [])
      | none =>
          (.ok { Repository := repoName
                 BackupPath := backupPath
                 Strategy := StrategyCopy
                 Timestamp := w.now
                 OriginalPath := repoPath },
           [])

/-- `CreateBackup`: dispatches on `bm.Strategy`; the `switch` sends
`"stash"` to the stash strategy, `"copy"` to the copy strategy, and every
other value to the copy strategy as the default case. -/
def BackupManager.CreateBackup (bm : BackupManager) (w : World)
    (repoPath repoName : String) : Except BackupError BackupInfo × List GitCmd :=
  if bm.Strategy = StrategyStash then
    bm.createStashBackup w repoPath repoName
  else if bm.Strategy = StrategyCopy then
    bm.createCopyBackup w repoPath repoName
  else
    bm.createCopyBackup w repoPath repoName

/-! ## Update orchestrator (part_002) -/

/-- A value stored in the `interface` (empty-interface) field
`UpdateConfig.Filter`, seen through the type assertion the orchestrator
performs: `matchMethod` is the `Match(repoName string) bool` method of the
dynamic type when its method set has one, and `none` otherwise. -/
structure FilterDyn where
  matchMethod : Option (String → Bool)

/-- A value stored in the empty-interface field
`UpdateConfig.BackupManager`, seen through the type assertion the
orchestrator performs: `createBackupErrMethod` is the
`CreateBackup(repoPath, repoName string) error` method of the dynamic type
when its method set has one with exactly that signature, `none`
otherwise. -/
structure BackupDyn where
  createBackupErrMethod : Option (String → String → Option String)

/-- The dynamic view of the concrete `filter.Filter` type: its method set
is `ShouldProcess`, `GetStats` and `FilterRepositories` — no method named
`Match` — so the orchestrator's type assertion for
`Match(repoName string) bool` fails on it. -/
def Filter.asDyn (_f : Filter) : FilterDyn :=
  { matchMethod := none }

/-- The dynamic view of the concrete `backup.BackupManager` type: its
`CreateBackup` has signature
`CreateBackup(repoPath, repoName string) (*BackupInfo, error)`, which does
not match the single-result interface
`CreateBackup(repoPath, repoName string) error` the orchestrator asserts,
so the assertion fails on it. -/
def BackupManager.asDyn (_bm : BackupManager) : BackupDyn :=
  { createBackupErrMethod := none }

/-- `ParallelUpdateConfig` from package git; `Timeout` is a
`time.Duration` in nanoseconds. -/
structure ParallelUpdateConfig where
  Enabled : Bool
  MaxConcurrent : Nat
  Timeout : Nat

/-- `UpdateConfig` from package git; the two empty-interface fields hold
dynamic values (or nil). -/
structure UpdateConfig where
  BaseDir : String
  Parallel : ParallelUpdateConfig
  BackupEnabled : Bool
  BackupManager : Option BackupDyn
  Filter : Option FilterDyn

/-- The filter step of `UpdateRepositoriesWithConfig`: when `cfg.Filter`
is non-nil and asserts to the `Match` interface, keep the repositories the
method accepts; otherwise keep every repository. -/
def applyConfigFilter (cfg : UpdateConfig) (repositories : List Repository) :
    List Repository :=
  match cfg.Filter with
  | none => repositories
  | some fDyn =>
      match fDyn.matchMethod with
      | some m => repositories.filter (fun r => m r.Name)
      | none => repositories

/-- The backup step for one repository: attempted only when backups are
enabled, the manager field is non-nil and it asserts to the error-only
`CreateBackup` interface. Returns the repository names whose backup was
attempted (the call's error, if any, is only logged). -/
def backupStep (cfg : UpdateConfig) (repo : Repository) : List String :=
  if cfg.BackupEnabled then
    match cfg.BackupManager with
    | some bmDyn =>
        match bmDyn.createBackupErrMethod with
        | some _ => [repo.Name]
        | none => []
    | none => []
  else
    []

/-- The per-repository loop of `UpdateRepositoriesWithConfig`:
threads `successCount`, `errorCount` and the list of repositories for
which a backup call was attempted. A failed pull increments `errorCount`,
a successful one `successCount`; the loop always continues to the next
repository. -/
def updateLoop (w : World) (cfg : UpdateConfig) :
    List Repository → Nat → Nat → List String → Nat × Nat × List String
  | [], successCount, errorCount, backups => (successCount, errorCount, backups)
  | repo :: rest, successCount, errorCount, backups =>
      let backups := backups ++ backupStep cfg repo
      match PullRepository w repo.Path with
      | some _ => updateLoop w cfg rest successCount (errorCount + 1) backups
      | none => updateLoop w cfg rest (successCount + 1) errorCount backups

/-- The outcome of one orchestrator run: the final counters, the number of
repositories attempted, and whether the run ended in the fatal log call
that exits the process with a nonzero code. -/
structure UpdateResult where
  total : Nat
  successCount : Nat
  errorCount : Nat
  fatalExit : Bool
deriving DecidableEq, Repr

/-- `UpdateRepositoriesWithConfig`: discovers repositories, returns
successfully when none are found, otherwise filters them, processes each
one in order, and ends with a fatal (nonzero-exit) log call iff
`errorCount > 0`. The second component lists the repositories for which a
backup call was attempted. -/
def UpdateRepositoriesWithConfig (w : World) (cfg : UpdateConfig) :
    UpdateResult × List String :=
  let repositories := FindRepositories w cfg.BaseDir
  if repositories.length = 0 then
    ({ total := 0, successCount := 0, errorCount := 0, fatalExit := false }, [])
  else
    let repositories := applyConfigFilter cfg repositories
    let r := updateLoop w cfg repositories 0 0 []
    ({ total := repositories.length
       successCount := r.1
       errorCount := r.2.1
       fatalExit := r.2.1 > 0 },
     r.2.2)

/-- The repositories an orchestrator run actually attempts: the discovered
list after the filter step, empty when discovery found nothing. -/
def attemptedRepositories (w : World) (cfg : UpdateConfig) : List Repository :=
  let repositories := FindRepositories w cfg.BaseDir
  if repositories.length = 0 then [] else applyConfigFilter cfg repositories

/-! ## pull command (part_003) -/

/-- The global `config.Timeout` (seconds) from `internal/config`. -/
def configTimeoutSeconds : Nat := 30

/-- The per-repository timeout `runUpdate` stores into
`UpdateConfig.Parallel.Timeout`: the configured seconds as a duration,
replaced by 5 minutes when it is zero. In nanoseconds. -/
def runUpdateTimeout (configuredSeconds : Nat) : Nat :=
  let t := configuredSeconds * 1000000000
  if t = 0 then 5 * 60 * 1000000000 else t

/-! ## Helper lemmas -/

/-- A string has positive length exactly when it is not the empty string. -/
theorem string_length_pos_iff (s : String) : 0 < s.length ↔ s ≠ "" := by
  obtain ⟨data⟩ := s
  cases data with
  | nil => simp [String.length]
  | cons c cs =>
      constructor
      · intro _ h
        exact absurd (congrArg String.data h) (by simp)
      · intro _
        simp [String.length]

/-- The accumulator-passing loop of `FilterRepositories` computes the
accumulator followed by the filtered input. -/
theorem filterReposLoop_eq (f : Filter) (repos : List String) :
    ∀ acc, filterReposLoop f acc repos = acc ++ repos.filter f.ShouldProcess := by
  induction repos with
  | nil => intro acc; simp [filterReposLoop]
  | cons repo rest ih =>
      intro acc
      by_cases h : f.ShouldProcess repo
      · simp [filterReposLoop, h, ih, List.filter_cons]
      · simp only [Bool.not_eq_true] at h
        simp [filterReposLoop, h, ih, List.filter_cons]

/-- The length of a filtered list is the original length minus the
number of elements failing the predicate. -/
theorem length_filter_eq_sub {α : Type} (p : α → Bool) (l : List α) :
    (l.filter p).length = l.length - l.countP (fun a => !p a) := by
  induction l with
  | nil => simp
  | cons a l ih =>
      have hle : l.countP (fun a => !p a) ≤ l.length := l.countP_le_length _
      by_cases h : p a
      · simp only [List.filter_cons, h, if_pos, List.countP_cons, List.length_cons,
          Bool.not_true, Bool.false_eq_true, if_false, ih]
        omega
      · simp only [Bool.not_eq_true] at h
        simp only [List.filter_cons, h, Bool.false_eq_true, if_false, List.countP_cons,
          List.length_cons, Bool.not_false, if_pos, ih]
        omega

/-- A minimal concrete world, used as the base of concrete instances. -/
def baseWorld : World :=
  { now := 0
    entries := []
    gitDirIsDir := fun _ => false
    symbolicRef := fun _ => .error "exit status 1"
    branchesOut := fun _ => .error "exit status 1"
    pullResult := fun _ => none
    statusOutput := fun _ => none
    stashResult := fun _ => none
    mkdirAllResult := fun _ => none
    copyResult := fun _ _ => none }

/-! ## Claim theorems -/

/-- C5: `ShouldProcess` checks the skip list first (exact membership, a
skipped name is always rejected), then the exclude pattern, then the
include pattern, the first failing check returning false; a name
surviving all three checks is accepted, and with no patterns configured
the result is exactly non-membership in the skip list. -/
theorem shouldProcess_check_order (f : Filter) (name : String) :
    (name ∈ f.SkipRepos → f.ShouldProcess name = false) ∧
    (f.SkipRepos.contains name = false → f.excludeMatches name = true →
      f.ShouldProcess name = false) ∧
    (f.SkipRepos.contains name = false → f.excludeMatches name = false →
      f.includeRejects name = true → f.ShouldProcess name = false) ∧
    (f.SkipRepos.contains name = false → f.excludeMatches name = false →
      f.includeRejects name = false → f.ShouldProcess name = true) ∧
    (f.ExcludePattern = none → f.IncludePattern = none →
      f.ShouldProcess name = !(f.SkipRepos.contains name)) := by
  refine ⟨?_, ?_, ?_, ?_, ?_⟩
  · intro hmem
    have hc : f.SkipRepos.contains name = true := by
      simpa using hmem
    unfold Filter.ShouldProcess
    rw [hc]
    simp
  · intro hc hex
    unfold Filter.ShouldProcess
    rw [hc, hex]
    simp
  · intro hc hex hinc
    unfold Filter.ShouldProcess
    rw [hc, hex, hinc]
    simp
  · intro hc hex hinc
    unfold Filter.ShouldProcess
    rw [hc, hex, hinc]
    simp
  · intro hex hinc
    by_cases hc : f.SkipRepos.contains name = true
    · unfold Filter.ShouldProcess
      rw [hc]
      simp
    · simp only [Bool.not_eq_true] at hc
      unfold Filter.ShouldProcess
      rw [hc]
      simp [Filter.excludeMatches, Filter.includeRejects, hex, hinc]

/-- C5 witness at concrete inputs. -/
theorem shouldProcess_check_order_witness :
    Filter.ShouldProcess ⟨none, none, ["vendor"]⟩ "vendor" = false ∧
    Filter.ShouldProcess ⟨none, none, ["vendor"]⟩ "app" = true := by
  refine ⟨(shouldProcess_check_order ⟨none, none, ["vendor"]⟩ "vendor").1 (by decide), ?_⟩
  have h := (shouldProcess_check_order ⟨none, none, ["vendor"]⟩ "app").2.2.2.2 rfl rfl
  simpa using h

/-- C6: `FilterRepositories` is exactly the order-preserving filter of
the input by `ShouldProcess`: it equals `List.filter`, it is a
subsequence of the input, and its length is the input length minus the
number of names `ShouldProcess` rejects. -/
theorem filterRepositories_spec (f : Filter) (repos : List String) :
    f.FilterRepositories repos = repos.filter f.ShouldProcess ∧
    (f.FilterRepositories repos).Sublist repos ∧
    (f.FilterRepositories repos).length =
      repos.length - repos.countP (fun n => !f.ShouldProcess n) := by
  have heq : f.FilterRepositories repos = repos.filter f.ShouldProcess := by
    simpa using filterReposLoop_eq f repos []
  refine ⟨heq, ?_, ?_⟩
  · rw [heq]
    exact List.filter_sublist repos
  · rw [heq]
    exact length_filter_eq_sub _ _

/-- C8: when the porcelain status command fails to run
`hasUncommittedChanges` reports true; when it runs, the result is true
exactly when the output is non-empty. -/
theorem hasUncommittedChanges_spec (bm : BackupManager) (w : World) (repoPath : String) :
    (w.statusOutput repoPath = none → bm.hasUncommittedChanges w repoPath = true) ∧
    (∀ out, w.statusOutput repoPath = some out →
      (bm.hasUncommittedChanges w repoPath = true ↔ out ≠ "")) := by
  constructor
  · intro h
    simp [BackupManager.hasUncommittedChanges, h]
  · intro out h
    rw [BackupManager.hasUncommittedChanges, h]
    simpa using string_length_pos_iff out

/-- C8 witness at concrete inputs: a failing status query and a clean
working tree. -/
theorem hasUncommittedChanges_spec_witness :
    BackupManager.hasUncommittedChanges ⟨"b", "copy", "t"⟩ baseWorld "p" = true ∧
    BackupManager.hasUncommittedChanges ⟨"b", "copy", "t"⟩
      { baseWorld with statusOutput := fun _ => some "" } "p" = false := by
  constructor
  · exact (hasUncommittedChanges_spec _ _ _).1 rfl
  · have h := ((hasUncommittedChanges_spec ⟨"b", "copy", "t"⟩
      { baseWorld with statusOutput := fun _ => some "" } "p").2 "" rfl)
    simp only [ne_eq, not_true_eq_false, iff_false, Bool.not_eq_true] at h
    exact h

/-- C10: for a strategy that is neither `"stash"` nor `"copy"`,
`CreateBackup` behaves exactly as it does for the copy strategy. -/
theorem createBackup_default_strategy (w : World) (dir ts strategy repoPath repoName : String)
    (h1 : strategy ≠ StrategyStash) (h2 : strategy ≠ StrategyCopy) :
    BackupManager.CreateBackup ⟨dir, strategy, ts⟩ w repoPath repoName =
      BackupManager.CreateBackup ⟨dir, StrategyCopy, ts⟩ w repoPath repoName := by
  rw [BackupManager.CreateBackup, BackupManager.CreateBackup]
  simp only [h1, h2, if_false, if_pos rfl]
  have hs : StrategyCopy ≠ StrategyStash := by decide
  simp only [hs, if_false]
  rfl

/-- C10 witness at a concrete unknown strategy. -/
theorem createBackup_default_strategy_witness :
    BackupManager.CreateBackup ⟨"b", "tarball", "t"⟩ baseWorld "p" "n" =
      BackupManager.CreateBackup ⟨"b", StrategyCopy, "t"⟩ baseWorld "p" "n" :=
  createBackup_default_strategy baseWorld "b" "t" "tarball" "p" "n" (by decide) (by decide)

/-- C7: with no uncommitted changes, the stash-strategy backup runs no
stash command and returns a successful `BackupInfo` whose path is the
sentinel `"git-stash"`; with uncommitted changes it runs
`git stash push -u -m` with a message embedding the run timestamp, and a
stash failure yields a `BackupError` with operation `"git stash"` whose
error carries the command's combined output. -/
theorem createStashBackup_spec (w : World) (bm : BackupManager) (repoPath repoName : String) :
    (bm.hasUncommittedChanges w repoPath = false →
      (bm.createStashBackup w repoPath repoName).1 =
        .ok { Repository := repoName, BackupPath := "git-stash", Strategy := StrategyStash,
              Timestamp := w.now, OriginalPath := repoPath } ∧
      ∀ c ∈ (bm.createStashBackup w repoPath repoName).2, "stash" ∉ c.args) ∧
    (bm.hasUncommittedChanges w repoPath = true →
      (⟨repoPath, ["stash", "push", "-u", "-m", "updateGit backup " ++ bm.Timestamp]⟩ : GitCmd) ∈
        (bm.createStashBackup w repoPath repoName).2 ∧
      ∀ errMsg out, w.stashResult repoPath = some (errMsg, out) →
        (bm.createStashBackup w repoPath repoName).1 =
          .error { Repository := repoName, Operation := "git stash",
                   Err := errMsg ++ ": " ++ out }) := by
  constructor
  · intro h
    unfold BackupManager.createStashBackup
    rw [h]
    refine ⟨rfl, ?_⟩
    intro c hc
    simp only [Bool.not_false, if_pos, List.mem_singleton] at hc
    subst hc
    simp
  · intro h
    unfold BackupManager.createStashBackup
    rw [h]
    constructor
    · cases hs : w.stashResult repoPath with
      | none => simp
      | some pair => simp
    · intro errMsg out hs
      rw [hs]
      simp

/-- C7 witness: a clean tree yields the sentinel success, and a dirty
tree with a failing stash yields the tagged error carrying the output. -/
theorem createStashBackup_spec_witness :
    (BackupManager.createStashBackup ⟨"b", StrategyStash, "20240101-000000"⟩
        { baseWorld with statusOutput := fun _ => some "" } "p" "n").1 =
      .ok { Repository := "n", BackupPath := "git-stash", Strategy := StrategyStash,
            Timestamp := 0, OriginalPath := "p" } ∧
    (BackupManager.createStashBackup ⟨"b", StrategyStash, "20240101-000000"⟩
        { baseWorld with statusOutput := fun _ => some "M f.txt"
                         stashResult := fun _ => some ("exit status 1", "fatal: x") } "p" "n").1 =
      .error { Repository := "n", Operation := "git stash",
               Err := "exit status 1" ++ ": " ++ "fatal: x" } := by
  constructor
  · exact ((createStashBackup_spec { baseWorld with statusOutput := fun _ => some "" }
      ⟨"b", StrategyStash, "20240101-000000"⟩ "p" "n").1 rfl).1
  · exact ((createStashBackup_spec
      { baseWorld with statusOutput := fun _ => some "M f.txt"
                       stashResult := fun _ => some ("exit status 1", "fatal: x") }
      ⟨"b", StrategyStash, "20240101-000000"⟩ "p" "n").2 rfl).2 "exit status 1" "fatal: x" rfl

/-- The scanner loop is the filter of the entries by
directory-with-`.git`, mapped to `Repository` records. -/
theorem findReposLoop_eq (w : World) (baseDir : String) (entries : List FsEntry) :
    findReposLoop w baseDir entries =
      (entries.filter
        (fun e => e.isDir && IsGitRepository w (joinPath baseDir e.name))).map
        (mkRepository w baseDir) := by
  induction entries with
  | nil => simp [findReposLoop]
  | cons e rest ih =>
      by_cases hd : e.isDir
      · by_cases hg : IsGitRepository w (joinPath baseDir e.name)
        · simp [findReposLoop, hd, hg, List.filter_cons, ih]
        · simp only [Bool.not_eq_true] at hg
          simp [findReposLoop, hd, hg, List.filter_cons, ih]
      · simp only [Bool.not_eq_true] at hd
        simp [findReposLoop, hd, List.filter_cons, ih]

/-- C4: with distinct entry names, an entry's `Repository` record is in
the scanner output exactly when the entry is a directory whose `.git`
child is a directory; and when the symbolic-ref read fails the record's
branch is `"unknown"` (inclusion being independent of that failure). -/
theorem findRepositories_membership (w : World) (baseDir : String)
    (hnodup : (w.entries.map FsEntry.name).Nodup) (e : FsEntry) (he : e ∈ w.entries) :
    (mkRepository w baseDir e ∈ FindRepositories w baseDir ↔
      e.isDir = true ∧ IsGitRepository w (joinPath baseDir e.name) = true) ∧
    (∀ err, w.symbolicRef (joinPath baseDir e.name) = .error err →
      (mkRepository w baseDir e).CurrentBranch = "unknown") := by
  constructor
  · rw [FindRepositories, findReposLoop_eq]
    constructor
    · intro hmem
      obtain ⟨e', he', heq⟩ := List.mem_map.mp hmem
      obtain ⟨he'mem, hcond⟩ := List.mem_filter.mp he'
      have hname : e'.name = e.name := congrArg Repository.Name heq
      have : e' = e := List.inj_on_of_nodup_map hnodup he'mem he hname
      subst this
      simpa using hcond
    · intro ⟨hd, hg⟩
      apply List.mem_map_of_mem
      exact List.mem_filter.mpr ⟨he, by simp [hd, hg]⟩
  · intro err herr
    simp [mkRepository, GetCurrentBranch, herr]

/-- C4 witness: a base directory with a git repository (whose HEAD read
fails), a plain directory and a file; only the repository is found, with
branch `"unknown"`. -/
theorem findRepositories_membership_witness :
    (mkRepository
        { baseWorld with
            entries := [⟨"repoA", true⟩, ⟨"notarepo", true⟩, ⟨"somefile", false⟩]
            gitDirIsDir := fun p => p == "base/repoA/.git" }
        "base" ⟨"repoA", true⟩ ∈
      FindRepositories
        { baseWorld with
            entries := [⟨"repoA", true⟩, ⟨"notarepo", true⟩, ⟨"somefile", false⟩]
            gitDirIsDir := fun p => p == "base/repoA/.git" }
        "base") ∧
    (mkRepository
        { baseWorld with
            entries := [⟨"repoA", true⟩, ⟨"notarepo", true⟩, ⟨"somefile", false⟩]
            gitDirIsDir := fun p => p == "base/repoA/.git" }
        "base" ⟨"repoA", true⟩).CurrentBranch = "unknown" := by
  constructor
  · exact ((findRepositories_membership
      { baseWorld with
          entries := [⟨"repoA", true⟩, ⟨"notarepo", true⟩, ⟨"somefile", false⟩]
          gitDirIsDir := fun p => p == "base/repoA/.git" }
      "base" (by decide) ⟨"repoA", true⟩ (by decide)).1).mpr (by decide)
  · exact (findRepositories_membership
      { baseWorld with
          entries := [⟨"repoA", true⟩, ⟨"notarepo", true⟩, ⟨"somefile", false⟩]
          gitDirIsDir := fun p => p == "base/repoA/.git" }
      "base" (by decide) ⟨"repoA", true⟩ (by decide)).2 "exit status 1" rfl

/-- The per-repository loop adds one to `successCount` per successful
pull, one to `errorCount` per failed pull, and appends the backup
attempts; it never removes from any accumulator. -/
theorem updateLoop_spec (w : World) (cfg : UpdateConfig) :
    ∀ (repos : List Repository) (s e : Nat) (b : List String),
      (updateLoop w cfg repos s e b).1 =
        s + repos.countP (fun r => (w.pullResult r.Path).isNone) ∧
      (updateLoop w cfg repos s e b).2.1 =
        e + repos.countP (fun r => (w.pullResult r.Path).isSome) ∧
      (updateLoop w cfg repos s e b).2.2 = b ++ (repos.map (backupStep cfg)).flatten := by
  intro repos
  induction repos with
  | nil => intro s e b; simp [updateLoop]
  | cons repo rest ih =>
      intro s e b
      cases hp : w.pullResult repo.Path with
      | none =>
          have hstep : updateLoop w cfg (repo :: rest) s e b =
              updateLoop w cfg rest (s + 1) e (b ++ backupStep cfg repo) := by
            simp [updateLoop, PullRepository, hp]
          have h := ih (s + 1) e (b ++ backupStep cfg repo)
          have hcn : List.countP (fun r => (w.pullResult r.Path).isNone) (repo :: rest) =
              List.countP (fun r => (w.pullResult r.Path).isNone) rest + 1 := by
            simp [List.countP_cons, hp]
          have hcs : List.countP (fun r => (w.pullResult r.Path).isSome) (repo :: rest) =
              List.countP (fun r => (w.pullResult r.Path).isSome) rest := by
            simp [List.countP_cons, hp]
          rw [hstep]
          refine ⟨?_, ?_, ?_⟩
          · rw [h.1, hcn]; omega
          · rw [h.2.1, hcs]
          · rw [h.2.2]; simp
      | some msg =>
          have hstep : updateLoop w cfg (repo :: rest) s e b =
              updateLoop w cfg rest s (e + 1) (b ++ backupStep cfg repo) := by
            simp [updateLoop, PullRepository, hp]
          have h := ih s (e + 1) (b ++ backupStep cfg repo)
          have hcn : List.countP (fun r => (w.pullResult r.Path).isNone) (repo :: rest) =
              List.countP (fun r => (w.pullResult r.Path).isNone) rest := by
            simp [List.countP_cons, hp]
          have hcs : List.countP (fun r => (w.pullResult r.Path).isSome) (repo :: rest) =
              List.countP (fun r => (w.pullResult r.Path).isSome) rest + 1 := by
            simp [List.countP_cons, hp]
          rw [hstep]
          refine ⟨?_, ?_, ?_⟩
          · rw [h.1, hcn]
          · rw [h.2.1, hcs]; omega
          · rw [h.2.2]; simp

/-- Successful and failed pulls together exhaust the processed list. -/
theorem countP_pull_split (g : String → Option String) (l : List Repository) :
    l.countP (fun r => (g r.Path).isNone) + l.countP (fun r => (g r.Path).isSome) = l.length := by
  induction l with
  | nil => simp
  | cons r rest ih =>
      cases hp : g r.Path with
      | none => simp [List.countP_cons, hp]; omega
      | some msg => simp [List.countP_cons, hp]; omega

/-- C1: in every orchestrator run, `successCount` plus `errorCount`
equals the number of repositories attempted, the run exits nonzero (the
fatal log) exactly when `errorCount > 0`, and each counter is exactly the
number of attempted repositories whose pull succeeded resp. failed — so
one repository's failure never affects another's tally. -/
theorem updateRepositoriesWithConfig_aggregate (w : World) (cfg : UpdateConfig) :
    (UpdateRepositoriesWithConfig w cfg).1.successCount +
        (UpdateRepositoriesWithConfig w cfg).1.errorCount =
      (attemptedRepositories w cfg).length ∧
    ((UpdateRepositoriesWithConfig w cfg).1.fatalExit = true ↔
      0 < (UpdateRepositoriesWithConfig w cfg).1.errorCount) ∧
    (UpdateRepositoriesWithConfig w cfg).1.successCount =
      (attemptedRepositories w cfg).countP (fun r => (w.pullResult r.Path).isNone) ∧
    (UpdateRepositoriesWithConfig w cfg).1.errorCount =
      (attemptedRepositories w cfg).countP (fun r => (w.pullResult r.Path).isSome) := by
  unfold UpdateRepositoriesWithConfig attemptedRepositories
  by_cases h0 : (FindRepositories w cfg.BaseDir).length = 0
  · simp [h0]
  · simp only [h0, if_false]
    have h := updateLoop_spec w cfg (applyConfigFilter cfg (FindRepositories w cfg.BaseDir)) 0 0 []
    have hsplit := countP_pull_split w.pullResult
      (applyConfigFilter cfg (FindRepositories w cfg.BaseDir))
    refine ⟨?_, ?_, ?_, ?_⟩
    · simp only [h.1, h.2.1, Nat.zero_add]
      omega
    · simp [h.2.1]
    · simpa using h.1
    · simpa using h.2.1

/-- C2: when the `Filter` field holds the concrete `filter.Filter` value
(whose membership method is `ShouldProcess`, not `Match`), the type
assertion fails and no filtering happens: the attempted list is the whole
discovered list. -/
theorem concreteFilter_not_applied (w : World) (cfg : UpdateConfig) (f : Filter)
    (h : cfg.Filter = some f.asDyn) :
    (∀ repos, applyConfigFilter cfg repos = repos) ∧
    attemptedRepositories w cfg = FindRepositories w cfg.BaseDir := by
  have hfil : ∀ repos, applyConfigFilter cfg repos = repos := by
    intro repos
    unfold applyConfigFilter
    rw [h]
    rfl
  refine ⟨hfil, ?_⟩
  unfold attemptedRepositories
  by_cases h0 : (FindRepositories w cfg.BaseDir).length = 0
  · simp only [h0, if_pos]
    exact (List.length_eq_zero.mp h0).symm
  · simp only [h0, if_false]
    exact hfil _

/-- C2 witness: a skip-listed repository is still attempted when the
concrete filter sits in the interface field. -/
theorem concreteFilter_not_applied_witness :
    attemptedRepositories
        { baseWorld with
            entries := [⟨"repoA", true⟩]
            gitDirIsDir := fun p => p == "base/repoA/.git" }
        { BaseDir := "base"
          Parallel := { Enabled := false, MaxConcurrent := 10, Timeout := 30 }
          BackupEnabled := false
          BackupManager := none
          Filter := some (Filter.asDyn ⟨none, none, ["repoA"]⟩) } =
      FindRepositories
        { baseWorld with
            entries := [⟨"repoA", true⟩]
            gitDirIsDir := fun p => p == "base/repoA/.git" }
        "base" :=
  (concreteFilter_not_applied
    { baseWorld with
        entries := [⟨"repoA", true⟩]
        gitDirIsDir := fun p => p == "base/repoA/.git" }
    { BaseDir := "base"
      Parallel := { Enabled := false, MaxConcurrent := 10, Timeout := 30 }
      BackupEnabled := false
      BackupManager := none
      Filter := some (Filter.asDyn ⟨none, none, ["repoA"]⟩) }
    ⟨none, none, ["repoA"]⟩ rfl).2

/-- C3: when the `BackupManager` field holds the concrete
`backup.BackupManager` value (whose `CreateBackup` returns a pair, not a
bare error), the type assertion fails and no backup is ever attempted,
even with backups enabled. -/
theorem concreteBackupManager_never_called (w : World) (cfg : UpdateConfig)
    (bm : BackupManager) (h : cfg.BackupManager = some bm.asDyn) :
    (∀ repo, backupStep cfg repo = []) ∧
    (UpdateRepositoriesWithConfig w cfg).2 = [] := by
  have hb : ∀ repo, backupStep cfg repo = [] := by
    intro repo
    unfold backupStep
    rw [h]
    simp [BackupManager.asDyn]
  refine ⟨hb, ?_⟩
  have hjoin : ∀ l : List Repository, (l.map (backupStep cfg)).flatten = [] := by
    intro l
    induction l with
    | nil => simp
    | cons r rest ih => simp [hb, ih]
  unfold UpdateRepositoriesWithConfig
  by_cases h0 : (FindRepositories w cfg.BaseDir).length = 0
  · simp [h0]
  · simp only [h0, if_false]
    have h := updateLoop_spec w cfg (applyConfigFilter cfg (FindRepositories w cfg.BaseDir)) 0 0 []
    simpa [hjoin] using h.2.2

/-- C3 witness: backups enabled and the concrete manager in the field,
yet the run attempts no backup. -/
theorem concreteBackupManager_never_called_witness :
    (UpdateRepositoriesWithConfig
        { baseWorld with
            entries := [⟨"repoA", true⟩]
            gitDirIsDir := fun p => p == "base/repoA/.git" }
        { BaseDir := "base"
          Parallel := { Enabled := false, MaxConcurrent := 10, Timeout := 30 }
          BackupEnabled := true
          BackupManager := some (BackupManager.asDyn ⟨"./backups/x", StrategyCopy, "x"⟩)
          Filter := none }).2 = [] :=
  (concreteBackupManager_never_called
    { baseWorld with
        entries := [⟨"repoA", true⟩]
        gitDirIsDir := fun p => p == "base/repoA/.git" }
    { BaseDir := "base"
      Parallel := { Enabled := false, MaxConcurrent := 10, Timeout := 30 }
      BackupEnabled := true
      BackupManager := some (BackupManager.asDyn ⟨"./backups/x", StrategyCopy, "x"⟩)
      Filter := none }
    ⟨"./backups/x", StrategyCopy, "x"⟩ rfl).2

/-- A world with one git repository whose pull runs and succeeds. -/
def timeoutWorld : World :=
  { baseWorld with
      entries := [⟨"repoA", true⟩]
      gitDirIsDir := fun p => p == "base/repoA/.git"
      symbolicRef := fun _ => .ok "refs/heads/main" }

/-- An orchestrator configuration whose per-repository timeout is `t`
nanoseconds, everything else fixed. -/
def timeoutCfg (t : Nat) : UpdateConfig :=
  { BaseDir := "base"
    Parallel := { Enabled := true, MaxConcurrent := 10, Timeout := t }
    BackupEnabled := false
    BackupManager := none
    Filter := none }

/-- C9 counterexample: with a one-nanosecond per-repository timeout the
run is byte-for-byte identical to the run with a five-minute timeout and
still counts the pull as a success — impossible if the pull operation
were bounded by the configured timeout, which would have to cut a real
pull off after one nanosecond and count it as a failure. The timeout
value is never consulted on the pull path. -/
theorem pull_not_bounded_by_timeout :
    UpdateRepositoriesWithConfig timeoutWorld (timeoutCfg 1) =
      UpdateRepositoriesWithConfig timeoutWorld (timeoutCfg 300000000000) ∧
    (UpdateRepositoriesWithConfig timeoutWorld (timeoutCfg 1)).1.successCount = 1 ∧
    (UpdateRepositoriesWithConfig timeoutWorld (timeoutCfg 1)).1.errorCount = 0 :=
  ⟨rfl, rfl, rfl⟩

/-- The orchestrator never reads the `Parallel` settings: runs agree for
configurations equal in every other field. -/
theorem updateRepositoriesWithConfig_congr (w : World) (c₁ c₂ : UpdateConfig)
    (h1 : c₁.BaseDir = c₂.BaseDir) (h2 : c₁.BackupEnabled = c₂.BackupEnabled)
    (h3 : c₁.BackupManager = c₂.BackupManager) (h4 : c₁.Filter = c₂.Filter) :
    UpdateRepositoriesWithConfig w c₁ = UpdateRepositoriesWithConfig w c₂ := by
  have hbs : backupStep c₁ = backupStep c₂ := by
    funext repo
    unfold backupStep
    rw [h2, h3]
  have hloop : ∀ repos s e b, updateLoop w c₁ repos s e b = updateLoop w c₂ repos s e b := by
    intro repos
    induction repos with
    | nil => intro s e b; rfl
    | cons repo rest ih =>
        intro s e b
        unfold updateLoop
        rw [hbs]
        cases PullRepository w repo.Path <;> simp [ih]
  have hfil : applyConfigFilter c₁ = applyConfigFilter c₂ := by
    funext repos
    unfold applyConfigFilter
    rw [h4]
  unfold UpdateRepositoriesWithConfig
  rw [h1, hfil]
  simp only [hloop]

/-- C9 amended: `runUpdate` stores the configured timeout (replacing a
zero value by 5 minutes) in the configuration, and a failed pull is
counted as that repository's failure while every other repository is
still attempted; but the timeout itself is never honored: the whole run
is invariant under any change of the `Parallel` settings, timeout
included. -/
theorem timeout_configured_but_not_honored (w : World) (cfg : UpdateConfig)
    (p₁ p₂ : ParallelUpdateConfig) (s : Nat) (hs : s ≠ 0) :
    runUpdateTimeout 0 = 5 * 60 * 1000000000 ∧
    runUpdateTimeout s = s * 1000000000 ∧
    UpdateRepositoriesWithConfig w
        { BaseDir := cfg.BaseDir, Parallel := p₁, BackupEnabled := cfg.BackupEnabled
          BackupManager := cfg.BackupManager, Filter := cfg.Filter } =
      UpdateRepositoriesWithConfig w
        { BaseDir := cfg.BaseDir, Parallel := p₂, BackupEnabled := cfg.BackupEnabled
          BackupManager := cfg.BackupManager, Filter := cfg.Filter } ∧
    (UpdateRepositoriesWithConfig w cfg).1.errorCount =
      (attemptedRepositories w cfg).countP (fun r => (w.pullResult r.Path).isSome) := by
  refine ⟨rfl, ?_, updateRepositoriesWithConfig_congr w _ _ rfl rfl rfl rfl, ?_⟩
  · unfold runUpdateTimeout
    have hne : s * 1000000000 ≠ 0 := by positivity
    simp only [hne, if_false]
  · unfold UpdateRepositoriesWithConfig attemptedRepositories
    by_cases h0 : (FindRepositories w cfg.BaseDir).length = 0
    · simp [h0]
    · simp only [h0, if_false]
      have h := updateLoop_spec w cfg (applyConfigFilter cfg (FindRepositories w cfg.BaseDir)) 0 0 []
      simpa using h.2.1

/-- C9 amended, witness at concrete inputs: the 30-second configured
value survives the default check, and two runs differing only in the
timeout coincide. -/
theorem timeout_configured_but_not_honored_witness :
    runUpdateTimeout 30 = 30 * 1000000000 ∧
    UpdateRepositoriesWithConfig timeoutWorld ⟨"base", ⟨true, 10, 7⟩, false, none, none⟩ =
      UpdateRepositoriesWithConfig timeoutWorld ⟨"base", ⟨true, 10, 8⟩, false, none, none⟩ := by
  have h := timeout_configured_but_not_honored timeoutWorld
    ⟨"base", ⟨true, 10, 7⟩, false, none, none⟩ ⟨true, 10, 7⟩ ⟨true, 10, 8⟩ 30 (by decide)
  exact ⟨h.2.1, h.2.2.1⟩

end UpdateGit
